import Mathlib

/-!
Shallow embedding of `src/demo_debugpy.py`, a linear demonstration script.
Numeric values are modelled as exact rationals (`ℚ`); Python's `round(x, 2)`
is modelled as round-half-to-even on `x * 100`, matching Python's documented
rounding of exact halves.  Exceptions are modelled with `Except`, and the
threaded section with an explicit interleaving semantics over schedules.
-/

namespace DebugpyDemo

/-- Python `round` for ties: round half to even (banker's rounding), on ℚ. -/
def pyRoundHalfEven (q : ℚ) : ℤ :=
  if q - ⌊q⌋ < 1/2 then ⌊q⌋
  else if 1/2 < q - ⌊q⌋ then ⌊q⌋ + 1
  else if ⌊q⌋ % 2 = 0 then ⌊q⌋ else ⌊q⌋ + 1

/-- Python `round(x, 2)` on exact rationals. -/
def pyRound2 (q : ℚ) : ℚ := (pyRoundHalfEven (q * 100) : ℚ) / 100

/-- `apply_discount(price, discount_pct)` from Section 3 of the script. -/
def apply_discount (price discount_pct : ℚ) : ℚ :=
  let discount := price * (discount_pct / 100)
  let final := price - discount
  final

/-- `apply_tax(price, tax_rate)` from Section 3 of the script. -/
def apply_tax (price tax_rate : ℚ) : ℚ :=
  let tax := price * tax_rate
  let total := price + tax
  total

/-- `calculate_total(base_price, discount_pct, tax_rate)` from Section 3. -/
def calculate_total (base_price : ℚ) (discount_pct : ℚ := 10) (tax_rate : ℚ := 8/100) : ℚ :=
  let discounted := apply_discount base_price discount_pct
  let total := apply_tax discounted tax_rate
  pyRound2 total

/-! ### Section 4: the product catalog and its display loop -/

/-- One catalog entry.  The `price` is held in cents, so that the two-decimal
display format of the source (`{price:>8.2f}`) is exact. -/
structure CatalogItem where
  id : Nat
  name : String
  price : Nat

/-- Left-justify to width `w` with spaces (Python `{s:20s}`). -/
def padRight (s : String) (w : Nat) : String :=
  s ++ String.mk (List.replicate (w - s.length) (Char.ofNat 32))

/-- Right-justify to width `w` with spaces (Python `{s:>8}`). -/
def padLeft (s : String) (w : Nat) : String :=
  String.mk (List.replicate (w - s.length) (Char.ofNat 32)) ++ s

/-- Render a cent amount with two decimals (Python `{x:.2f}` on exact cents). -/
def fmtCents (c : Nat) : String :=
  toString (c / 100) ++ "." ++
    (if c % 100 < 10 then "0" ++ toString (c % 100) else toString (c % 100))

/-- The label built in the Section 4 loop body for one item. -/
def itemLine (it : CatalogItem) : String :=
  "  [" ++ toString it.id ++ "] " ++ padRight it.name 20 ++ " $" ++
    padLeft (fmtCents it.price) 8

/-- The Section 4 loop body: it reads `it`, builds the label, and leaves the
catalog state untouched (the source body only constructs and prints a string). -/
def catalogBody (it : CatalogItem) (cat : List CatalogItem) :
    String × List CatalogItem :=
  (itemLine it, cat)

/-- The Section 4 `for item in catalog` loop, threading the catalog as state:
returns the printed lines in order and the catalog after the loop. -/
def catalogLoopAux : List CatalogItem → List CatalogItem →
    List String × List CatalogItem
  | [], cat => ([], cat)
  | it :: rest, cat =>
    let r := catalogBody it cat
    let res := catalogLoopAux rest r.2
    (r.1 :: res.1, res.2)

/-- The whole Section 4 iteration over a catalog. -/
def catalogSection (cat : List CatalogItem) : List String × List CatalogItem :=
  catalogLoopAux cat cat

/-- The literal catalog of the script (prices in cents). -/
def catalog : List CatalogItem :=
  [⟨1, "Widget Basic", 2500⟩,
   ⟨2, "Widget Plus", 4999⟩,
   ⟨3, "Widget Pro", 14999⟩,
   ⟨4, "Gadget Lite", 1999⟩,
   ⟨5, "Gadget Pro", 19999⟩,
   ⟨6, "Gadget Ultra", 34999⟩,
   ⟨7, "Accessory Pack", 999⟩,
   ⟨8, "Premium Bundle", 49999⟩]

/-! ### Section 5: exceptions -/

/-- The Python exception kinds raised in Section 5. -/
inductive PyExc where
  | zeroDivisionError
  | valueError
  | keyError
  deriving DecidableEq

/-- `risky_division(a, b)`: Python `a / b`, raising `ZeroDivisionError`
when `b` is 0. -/
def risky_division (a b : ℚ) : Except PyExc ℚ :=
  if b = 0 then .error .zeroDivisionError else .ok (a / b)

/-- Value of a decimal digit character, `none` for a non-digit. -/
def digitVal (c : Char) : Option Nat :=
  if c.isDigit then some (c.toNat - 48) else none

/-- Accumulate a decimal number over a character list; `none` on any
non-digit character. -/
def parseDigitsAux : Nat → List Char → Option Nat
  | acc, [] => some acc
  | acc, c :: cs =>
    match digitVal c with
    | none => none
    | some d => parseDigitsAux (acc * 10 + d) cs

/-- `parse_number(value)`: Python `int(value)` on a string — an optional
sign followed by at least one digit; anything else raises `ValueError`. -/
def parse_number (value : String) : Except PyExc Int :=
  match value.toList with
  | [] => .error .valueError
  | c :: cs =>
    if c = Char.ofNat 45 then
      match cs with
      | [] => .error .valueError
      | _ :: _ =>
        match parseDigitsAux 0 cs with
        | none => .error .valueError
        | some n => .ok (-(n : Int))
    else if c = Char.ofNat 43 then
      match cs with
      | [] => .error .valueError
      | _ :: _ =>
        match parseDigitsAux 0 cs with
        | none => .error .valueError
        | some n => .ok (n : Int)
    else
      match parseDigitsAux 0 (c :: cs) with
      | none => .error .valueError
      | some n => .ok (n : Int)

/-- Python `d[k]` on a small string-keyed dict: `KeyError` when absent. -/
def pyDictGet (m : List (String × Int)) (k : String) : Except PyExc Int :=
  match m.find? (fun p => p.1 == k) with
  | none => .error .keyError
  | some p => .ok p.2

/-- `except ZeroDivisionError` handler: turns exactly that exception into a
console message; any other exception propagates. -/
def catchZDE (x : Except PyExc ℚ) : Except PyExc (List String) :=
  match x with
  | .ok _ => .ok []
  | .error .zeroDivisionError => .ok ["  Caught ZeroDivisionError"]
  | .error e => .error e

/-- `except ValueError` handler. -/
def catchVE (x : Except PyExc Int) : Except PyExc (List String) :=
  match x with
  | .ok _ => .ok []
  | .error .valueError => .ok ["  Caught ValueError"]
  | .error e => .error e

/-- `except KeyError` handler. -/
def catchKE (x : Except PyExc Int) : Except PyExc (List String) :=
  match x with
  | .ok _ => .ok []
  | .error .keyError => .ok ["  Caught KeyError"]
  | .error e => .error e

/-- Section 5 in full: the three try/except blocks in source order.  The
result is `.ok` with the console trace when no exception escapes, and
`.error e` when some exception is not caught at its call site. -/
def section5 : Except PyExc (List String) :=
  match catchZDE (risky_division 10 0) with
  | .error e => .error e
  | .ok m1 =>
    match catchVE (parse_number "hello") with
    | .error e => .error e
    | .ok m2 =>
      match catchKE (pyDictGet [("a", 1), ("b", 2)] "missing_key") with
      | .error e => .error e
      | .ok m3 =>
        .ok (["  Attempting division by zero (caught)..."] ++ m1 ++
             ["  Attempting to parse hello as int (caught)..."] ++ m2 ++
             ["  Attempting missing dict key (caught)..."] ++ m3 ++
             ["  All exceptions were caught - no crash."])

/-! ### Section 6: orders and the programmatic breakpoint -/

/-- One line of an order. -/
structure OrderItem where
  name : String
  price : ℚ
  qty : Nat

/-- `sum(item["price"] * item["qty"] for item in items)`. -/
def orderSubtotal (items : List OrderItem) : ℚ :=
  (items.map (fun it => it.price * (it.qty : ℚ))).sum

/-- `process_order(order_id, items)` from Section 6: returns the total and
whether the `subtotal > 500` programmatic-breakpoint branch was taken. -/
def process_order (items : List OrderItem) : ℚ × Bool :=
  let subtotal := orderSubtotal items
  let largeOrder := decide (subtotal > 500)
  let tax := subtotal * (8/100)
  let total := subtotal + tax
  (total, largeOrder)

/-- The first (small) order of the script. -/
def order1 : List OrderItem :=
  [⟨"Widget", 25, 2⟩, ⟨"Gadget", 15, 1⟩]

/-- The second (large) order of the script. -/
def order2 : List OrderItem :=
  [⟨"Premium Bundle", 49999/100, 2⟩, ⟨"Accessory Pack", 999/100, 5⟩]

/-! ### Section 7: batch processing -/

/-- Python slice `data[i : i + n]`. -/
def pySlice {α : Type} (data : List α) (i n : Nat) : List α :=
  (data.drop i).take n

/-- The indices visited by `range(0, total, batch_size)` (for a positive
step; an empty range otherwise). -/
def batchIndices (total bs : Nat) : List Nat :=
  List.range' 0 ((total + bs - 1) / bs) bs

/-- The batches `data[i : i + batch_size]` taken by the loop, in order. -/
def batch_slices {α : Type} (data : List α) (bs : Nat) : List (List α) :=
  (batchIndices data.length bs).map (fun i => pySlice data i bs)

/-- `process_batches(data, batch_size)`, reduced to its observable summary:
`some (total, batches)` as printed by the final line, or `none` when the
loop body never ran so the summary line reads the unassigned `batch_id`
and raises `NameError`. -/
def process_batches {α : Type} (data : List α) (bs : Nat) : Option (Nat × Nat) :=
  match (batchIndices data.length bs).getLast? with
  | none => none
  | some i => some (data.length, i / bs + 1)

/-- `sample_data = list(range(1, 16))`. -/
def sample_data : List Nat := List.range' 1 15

/-! ### Section 8: the three worker threads, as an interleaving semantics -/

/-- The status line printed at step `k` of `steps` by `worker(name, steps)`. -/
def statusMsg (name : String) (k steps : Nat) : String :=
  "  [" ++ name ++ "] Step " ++ toString k ++ "/" ++ toString steps

/-- The completion line of `worker(name, steps)`. -/
def doneMsg (name : String) : String := "  [" ++ name ++ "] Done!"

/-- The final line of Section 8 printed by the main thread after the joins. -/
def summaryMsg : String := "  All threads finished."

/-- Everything `worker(name, steps)` prints, in order: one status line per
iteration of `for step in range(1, steps + 1)`, then the completion line. -/
def workerOut (name : String) (steps : Nat) : List String :=
  ((List.range' 1 steps).map (fun k => statusMsg name k steps)) ++ [doneMsg name]

/-- Which thread the scheduler runs next: one of the three workers, or the
main thread (which is blocked in `join` until all workers are done). -/
inductive Choice where
  | t0
  | t1
  | t2
  | m
  deriving DecidableEq

/-- Interleaving state of Section 8: each worker's remaining prints, whether
the main thread has passed the joins and printed the summary, and the
console output so far in reverse-chronological order (head = newest). -/
structure TState where
  rem0 : List String
  rem1 : List String
  rem2 : List String
  mainDone : Bool
  out : List String

/-- One scheduling step.  A worker prints its next line if it has one;
the main thread can only proceed (print the summary) once every worker
has finished, which is exactly the `t.join()` barrier. -/
def tstep (s : TState) : Choice → TState
  | .t0 =>
    match s.rem0 with
    | [] => s
    | x :: xs => { s with rem0 := xs, out := x :: s.out }
  | .t1 =>
    match s.rem1 with
    | [] => s
    | x :: xs => { s with rem1 := xs, out := x :: s.out }
  | .t2 =>
    match s.rem2 with
    | [] => s
    | x :: xs => { s with rem2 := xs, out := x :: s.out }
  | .m =>
    if s.mainDone then s
    else if s.rem0.isEmpty && s.rem1.isEmpty && s.rem2.isEmpty then
      { s with mainDone := true, out := summaryMsg :: s.out }
    else s

/-- Run a whole schedule. -/
def trun (cs : List Choice) (s : TState) : TState := cs.foldl tstep s

/-- The initial state of Section 8: the three named workers of the script. -/
def initTState : TState :=
  { rem0 := workerOut "Downloader" 4
    rem1 := workerOut "Processor" 3
    rem2 := workerOut "Uploader" 5
    mainDone := false
    out := [] }

/-- One schedule that drives Section 8 to completion: each worker runs to
exhaustion, then the main thread passes the joins. -/
def fairSched : List Choice :=
  List.replicate 5 .t0 ++ List.replicate 4 .t1 ++ List.replicate 6 .t2 ++ [.m]

/-- Invariant of the Section 8 interleaving: no worker is about to print the
summary line; the summary is absent until the main thread passes the joins;
once it has passed them every worker is drained and every completion line
already sits strictly below the summary in the output; and each worker's
completion line is either already printed or still the last line it will
print. -/
structure TInv (s : TState) : Prop where
  ns0 : summaryMsg ∉ s.rem0
  ns1 : summaryMsg ∉ s.rem1
  ns2 : summaryMsg ∉ s.rem2
  nsOut : s.mainDone = false → summaryMsg ∉ s.out
  afterJoin : s.mainDone = true →
    (s.rem0 = [] ∧ s.rem1 = [] ∧ s.rem2 = []) ∧
    ∃ t, s.out = summaryMsg :: t ∧
      doneMsg "Downloader" ∈ t ∧ doneMsg "Processor" ∈ t ∧ doneMsg "Uploader" ∈ t
  w0 : doneMsg "Downloader" ∈ s.out ∨ s.rem0.getLast? = some (doneMsg "Downloader")
  w1 : doneMsg "Processor" ∈ s.out ∨ s.rem1.getLast? = some (doneMsg "Processor")
  w2 : doneMsg "Uploader" ∈ s.out ∨ s.rem2.getLast? = some (doneMsg "Uploader")

/-! ### Section 9: analyze_transactions -/

/-- The loop state of `analyze_transactions`. -/
structure AnState where
  running_total : ℚ
  history : List ℚ
  high_value_count : Nat
  deriving DecidableEq

/-- One iteration of the Section 9 loop on a transaction amount. -/
def anStep (s : AnState) (amount : ℚ) : AnState :=
  let rt := s.running_total + amount
  { running_total := rt
    history := s.history ++ [rt]
    high_value_count :=
      if amount > 100 then s.high_value_count + 1 else s.high_value_count }

/-- `analyze_transactions(transactions)` reduced to its loop state (the
prints are determined by it). -/
def analyze_transactions (txns : List ℚ) : AnState :=
  txns.foldl anStep { running_total := 0, history := [], high_value_count := 0 }

/-- Running sums of a list starting from `r` (specification device for the
`history` list). -/
def cumFrom (r : ℚ) : List ℚ → List ℚ
  | [] => []
  | a :: t => (r + a) :: cumFrom (r + a) t

/-- The list of prefix sums of `l`. -/
def cumSums (l : List ℚ) : List ℚ := cumFrom 0 l

/-- The ten transaction amounts of the script, as exact rationals. -/
def scriptAmounts : List ℚ :=
  [45, 250, 25/2, 89999/100, 3499/100, 150, 135/2, 2400, 599/100, 175]

/-! ## Helper lemmas -/

/-- The exact pre-rounding total of the Section 3 call is 231.625. -/
lemma apply_tax_discount_script :
    apply_tax (apply_discount 250 15) (9/100) = 46325/200 := by
  simp only [apply_tax, apply_discount]
  norm_num

/-- `round(231.625, 2)` under round-half-to-even is 231.62. -/
lemma pyRound2_at_half : pyRound2 (46325/200) = 23162/100 := by
  simp only [pyRound2]
  have h1 : (46325/200 : ℚ) * 100 = 46325/2 := by norm_num
  rw [h1]
  have hf : ⌊(46325/2 : ℚ)⌋ = 23162 := by norm_num
  have h2 : pyRoundHalfEven (46325/2) = 23162 := by
    simp only [pyRoundHalfEven, hf]
    norm_num
  rw [h2]
  norm_num

/-- The Section 4 loop maps `itemLine` over the iterated list and returns the
catalog state it was given, untouched. -/
lemma catalogLoopAux_spec (items cat : List CatalogItem) :
    catalogLoopAux items cat = (items.map itemLine, cat) := by
  induction items generalizing cat with
  | nil => rfl
  | cons it rest ih => simp [catalogLoopAux, catalogBody, ih]

/-- Popping one line off a worker keeps its completion line either printed
or last in its remainder. -/
lemma pop_getLast (d x : String) (xs o : List String)
    (h : d ∈ o ∨ (x :: xs).getLast? = some d) :
    d ∈ (x :: o) ∨ xs.getLast? = some d := by
  rcases h with h | h
  · exact Or.inl (List.mem_cons_of_mem _ h)
  · cases xs with
    | nil =>
      simp only [List.getLast?_singleton, Option.some.injEq] at h
      exact Or.inl (h ▸ List.mem_cons_self x o)
    | cons b t =>
      rw [List.getLast?_cons_cons] at h
      exact Or.inr h

/-- Another thread printing a line preserves the per-worker disjunct. -/
lemma grow_out (d y : String) (o rem : List String)
    (h : d ∈ o ∨ rem.getLast? = some d) :
    d ∈ (y :: o) ∨ rem.getLast? = some d := by
  rcases h with h | h
  · exact Or.inl (List.mem_cons_of_mem _ h)
  · exact Or.inr h

/-- Every scheduling step preserves the Section 8 invariant. -/
lemma tinv_step (s : TState) (c : Choice) (h : TInv s) : TInv (tstep s c) := by
  obtain ⟨r0, r1, r2, md, o⟩ := s
  obtain ⟨hn0, hn1, hn2, hfalse, htrue, h0, h1, h2⟩ := h
  cases c with
  | t0 =>
    cases r0 with
    | nil => exact ⟨hn0, hn1, hn2, hfalse, htrue, h0, h1, h2⟩
    | cons x xs =>
      cases md with
      | true => exact absurd ((htrue rfl).1.1) (by simp)
      | false =>
        show TInv ⟨xs, r1, r2, false, x :: o⟩
        have hxne : summaryMsg ≠ x := fun he => hn0 (he ▸ List.mem_cons_self x xs)
        refine ⟨fun hm => hn0 (List.mem_cons_of_mem _ hm), hn1, hn2,
          ?_, (fun ht => nomatch ht), pop_getLast _ _ _ _ h0,
          grow_out _ _ _ _ h1, grow_out _ _ _ _ h2⟩
        intro _ hm
        rcases List.mem_cons.mp hm with he | hm
        · exact hxne he
        · exact hfalse rfl hm
  | t1 =>
    cases r1 with
    | nil => exact ⟨hn0, hn1, hn2, hfalse, htrue, h0, h1, h2⟩
    | cons x xs =>
      cases md with
      | true => exact absurd ((htrue rfl).1.2.1) (by simp)
      | false =>
        show TInv ⟨r0, xs, r2, false, x :: o⟩
        have hxne : summaryMsg ≠ x := fun he => hn1 (he ▸ List.mem_cons_self x xs)
        refine ⟨hn0, fun hm => hn1 (List.mem_cons_of_mem _ hm), hn2,
          ?_, (fun ht => nomatch ht), grow_out _ _ _ _ h0,
          pop_getLast _ _ _ _ h1, grow_out _ _ _ _ h2⟩
        intro _ hm
        rcases List.mem_cons.mp hm with he | hm
        · exact hxne he
        · exact hfalse rfl hm
  | t2 =>
    cases r2 with
    | nil => exact ⟨hn0, hn1, hn2, hfalse, htrue, h0, h1, h2⟩
    | cons x xs =>
      cases md with
      | true => exact absurd ((htrue rfl).1.2.2) (by simp)
      | false =>
        show TInv ⟨r0, r1, xs, false, x :: o⟩
        have hxne : summaryMsg ≠ x := fun he => hn2 (he ▸ List.mem_cons_self x xs)
        refine ⟨hn0, hn1, fun hm => hn2 (List.mem_cons_of_mem _ hm),
          ?_, (fun ht => nomatch ht), grow_out _ _ _ _ h0,
          grow_out _ _ _ _ h1, pop_getLast _ _ _ _ h2⟩
        intro _ hm
        rcases List.mem_cons.mp hm with he | hm
        · exact hxne he
        · exact hfalse rfl hm
  | m =>
    cases md with
    | true => exact ⟨hn0, hn1, hn2, hfalse, htrue, h0, h1, h2⟩
    | false =>
      have hstep : tstep ⟨r0, r1, r2, false, o⟩ .m =
          if (r0.isEmpty && r1.isEmpty && r2.isEmpty) then
            ⟨r0, r1, r2, true, summaryMsg :: o⟩
          else ⟨r0, r1, r2, false, o⟩ := rfl
      rw [hstep]
      cases he : (r0.isEmpty && r1.isEmpty && r2.isEmpty) with
      | false =>
        simp only [he, Bool.false_eq_true, if_false]
        exact ⟨hn0, hn1, hn2, hfalse, htrue, h0, h1, h2⟩
      | true =>
        simp only [he, if_true]
        obtain ⟨he0, he1, he2⟩ : r0 = [] ∧ r1 = [] ∧ r2 = [] := by
          simp only [Bool.and_eq_true, List.isEmpty_iff] at he
          exact ⟨he.1.1, he.1.2, he.2⟩
        subst he0; subst he1; subst he2
        have hd0 : doneMsg "Downloader" ∈ o := by
          rcases h0 with h | h
          · exact h
          · exact absurd h (by simp)
        have hd1 : doneMsg "Processor" ∈ o := by
          rcases h1 with h | h
          · exact h
          · exact absurd h (by simp)
        have hd2 : doneMsg "Uploader" ∈ o := by
          rcases h2 with h | h
          · exact h
          · exact absurd h (by simp)
        exact ⟨hn0, hn1, hn2, (fun hf => nomatch hf),
          fun _ => ⟨⟨rfl, rfl, rfl⟩, o, rfl, hd0, hd1, hd2⟩,
          Or.inl (List.mem_cons_of_mem _ hd0),
          Or.inl (List.mem_cons_of_mem _ hd1),
          Or.inl (List.mem_cons_of_mem _ hd2)⟩

/-- Running any schedule preserves the invariant. -/
lemma tinv_run (cs : List Choice) (s : TState) (h : TInv s) : TInv (trun cs s) := by
  induction cs generalizing s with
  | nil => exact h
  | cons c cs ih => exact ih _ (tinv_step s c h)

/-- The initial state of Section 8 satisfies the invariant. -/
lemma tinv_init : TInv initTState := by
  refine ⟨?_, ?_, ?_, fun _ h => List.not_mem_nil summaryMsg h,
    (fun ht => nomatch ht), Or.inr ?_, Or.inr ?_, Or.inr ?_⟩ <;> decide

/-- Characterisation of the Section 9 fold from an arbitrary loop state. -/
lemma analyze_foldl (l : List ℚ) (r : ℚ) (hist : List ℚ) (c : Nat) :
    l.foldl anStep ⟨r, hist, c⟩ =
      ⟨r + l.sum, hist ++ cumFrom r l,
       c + l.countP (fun a => decide (a > 100))⟩ := by
  induction l generalizing r hist c with
  | nil => simp [cumFrom]
  | cons a t ih =>
    show t.foldl anStep (anStep ⟨r, hist, c⟩ a) = _
    have hstep : anStep ⟨r, hist, c⟩ a =
        ⟨r + a, hist ++ [r + a], if a > 100 then c + 1 else c⟩ := rfl
    rw [hstep, ih]
    simp only [AnState.mk.injEq]
    refine ⟨by rw [List.sum_cons]; ring, by rw [List.append_assoc]; rfl, ?_⟩
    rw [List.countP_cons]
    by_cases hgt : a > 100
    · simp [hgt]; omega
    · simp [hgt]

/-- `analyze_transactions` in closed form. -/
lemma analyze_transactions_spec (l : List ℚ) :
    analyze_transactions l =
      ⟨l.sum, cumSums l, l.countP (fun a => decide (a > 100))⟩ := by
  show l.foldl anStep ⟨0, [], 0⟩ = _
  rw [analyze_foldl]
  simp [cumSums]

/-- Prefix sums have the length of the input list. -/
lemma cumFrom_length (l : List ℚ) (r : ℚ) : (cumFrom r l).length = l.length := by
  induction l generalizing r with
  | nil => rfl
  | cons a t ih => simp [cumFrom, ih]

/-- The last prefix sum is the sum of the whole list. -/
lemma cumFrom_getLast (l : List ℚ) (r : ℚ) (h : l ≠ []) :
    (cumFrom r l).getLast? = some (r + l.sum) := by
  induction l generalizing r with
  | nil => exact absurd rfl h
  | cons a t ih =>
    cases t with
    | nil => simp [cumFrom]
    | cons b t2 =>
      show ((r + a) :: cumFrom (r + a) (b :: t2)).getLast? = _
      have hne : cumFrom (r + a) (b :: t2) = (r + a + b) :: cumFrom (r + a + b) t2 := rfl
      rw [hne, List.getLast?_cons_cons, ← hne, ih (r + a) (by simp)]
      congr 1
      simp only [List.sum_cons]
      ring

/-- Prefix sums of a nonnegative list are nondecreasing. -/
lemma cumFrom_chain (l : List ℚ) (r : ℚ) (h : ∀ a ∈ l, 0 ≤ a) :
    List.Chain' (· ≤ ·) (cumFrom r l) := by
  induction l generalizing r with
  | nil => exact List.chain'_nil
  | cons a t ih =>
    show List.Chain' (· ≤ ·) ((r + a) :: cumFrom (r + a) t)
    rw [List.chain'_cons']
    refine ⟨?_, ih (r + a) (fun b hb => h b (List.mem_cons_of_mem _ hb))⟩
    intro y hy
    cases t with
    | nil => simp [cumFrom] at hy
    | cons b t2 =>
      have : (cumFrom (r + a) (b :: t2)).head? = some (r + a + b) := rfl
      rw [this, Option.mem_some_iff] at hy
      have hb : (0 : ℚ) ≤ b := h b (by simp)
      linarith [hy]

/-! ## Claims -/

/-- C1 (counterexample): the script's Section 3 call does not evaluate to
231.57; the claimed figure is refuted at the exact script inputs
(base 250.00, discount 15%, tax 9%). -/
theorem calculate_total_ne_231_57 :
    calculate_total 250 15 (9/100) ≠ 23157/100 := by
  simp only [calculate_total]
  rw [apply_tax_discount_script, pyRound2_at_half]
  norm_num

/-- C1 (amended): `calculate_total(250.00, 15, 0.09)` computes
250 × 0.85 = 212.50, then 212.50 × 1.09 = 231.625, and `round(·, 2)`
takes it to 231.62 under round-half-to-even on the exact value (one of the
two values the spec's parenthetical allows; not 231.57). -/
theorem calculate_total_script_call :
    apply_discount 250 15 = 425/2 ∧
    apply_tax (apply_discount 250 15) (9/100) = 46325/200 ∧
    calculate_total 250 15 (9/100) = 23162/100 := by
  refine ⟨?_, apply_tax_discount_script, ?_⟩
  · simp only [apply_discount]; norm_num
  · simp only [calculate_total]
    rw [apply_tax_discount_script, pyRound2_at_half]

/-- C2: on the 15 integers 1..15 with batch size 4, the loop visits exactly
4 batches of sizes 4, 4, 4, 3 in order, they partition the data, and the
summary line reports 15 items in 4 batches. -/
theorem process_batches_fifteen_by_four :
    (batch_slices sample_data 4).map List.length = [4, 4, 4, 3] ∧
    (batch_slices sample_data 4).flatten = sample_data ∧
    process_batches sample_data 4 = some (15, 4) := by
  refine ⟨?_, ?_, ?_⟩ <;> decide

/-- C3: the Section 4 iteration prints exactly one label per catalog entry,
in catalog order, and leaves the catalog unchanged; at the script's literal
catalog the eight printed lines are listed explicitly. -/
theorem catalog_iteration_order_and_frame :
    (∀ c : List CatalogItem, catalogSection c = (c.map itemLine, c)) ∧
    (catalogSection catalog).1 =
      ["  [1] Widget Basic         $   25.00",
       "  [2] Widget Plus          $   49.99",
       "  [3] Widget Pro           $  149.99",
       "  [4] Gadget Lite          $   19.99",
       "  [5] Gadget Pro           $  199.99",
       "  [6] Gadget Ultra         $  349.99",
       "  [7] Accessory Pack       $    9.99",
       "  [8] Premium Bundle       $  499.99"] ∧
    (catalogSection catalog).2 = catalog := by
  refine ⟨fun c => catalogLoopAux_spec c c, ?_, ?_⟩ <;> rfl

/-- C4: each of the three Section 5 demonstrations raises and is caught at
its call site — `section5` returns `.ok` with the full console trace rather
than propagating any exception — and execution continues past Section 5
(the later batch loop completes on the script's data and the threaded
section reaches its summary under a completing schedule). -/
theorem section5_no_exception_escapes :
    section5 = Except.ok
      ["  Attempting division by zero (caught)...",
       "  Caught ZeroDivisionError",
       "  Attempting to parse hello as int (caught)...",
       "  Caught ValueError",
       "  Attempting missing dict key (caught)...",
       "  Caught KeyError",
       "  All exceptions were caught - no crash."] ∧
    (process_batches sample_data 4).isSome = true ∧
    (trun fairSched initTState).mainDone = true := by
  refine ⟨?_, ?_, ?_⟩ <;> rfl

/-- C5: for every possible thread scheduling, the final summary line is
printed only after each of the three named workers has completed and printed
its completion line: whenever the summary appears in the output (which is
newest-first), it is the most recent line and all three completion lines
were printed strictly earlier. -/
theorem threads_join_before_summary (cs : List Choice)
    (h : summaryMsg ∈ (trun cs initTState).out) :
    ∃ t, (trun cs initTState).out = summaryMsg :: t ∧
      doneMsg "Downloader" ∈ t ∧ doneMsg "Processor" ∈ t ∧
      doneMsg "Uploader" ∈ t := by
  have hin := tinv_run cs initTState tinv_init
  cases hmd : (trun cs initTState).mainDone with
  | false => exact absurd h (hin.nsOut hmd)
  | true =>
    obtain ⟨-, t, hout, h1, h2, h3⟩ := hin.afterJoin hmd
    exact ⟨t, hout, h1, h2, h3⟩

/-- C5 witness: a concrete completing schedule on which the theorem applies. -/
theorem threads_join_before_summary_fair :
    ∃ t, (trun fairSched initTState).out = summaryMsg :: t ∧
      doneMsg "Downloader" ∈ t ∧ doneMsg "Processor" ∈ t ∧
      doneMsg "Uploader" ∈ t :=
  threads_join_before_summary fairSched (by decide)

/-- C6: `worker(name, steps)` prints exactly `steps` status lines then one
completion line (so 5, 4, 6 lines for Downloader/4, Processor/3, Uploader/5,
listed explicitly), and a step of any worker thread leaves the other two
workers' states untouched — no data is shared or mutated between threads. -/
theorem worker_fixed_behavior :
    (∀ (name : String) (steps : Nat), (workerOut name steps).length = steps + 1) ∧
    workerOut "Downloader" 4 =
      ["  [Downloader] Step 1/4", "  [Downloader] Step 2/4",
       "  [Downloader] Step 3/4", "  [Downloader] Step 4/4",
       "  [Downloader] Done!"] ∧
    workerOut "Processor" 3 =
      ["  [Processor] Step 1/3", "  [Processor] Step 2/3",
       "  [Processor] Step 3/3", "  [Processor] Done!"] ∧
    workerOut "Uploader" 5 =
      ["  [Uploader] Step 1/5", "  [Uploader] Step 2/5",
       "  [Uploader] Step 3/5", "  [Uploader] Step 4/5",
       "  [Uploader] Step 5/5", "  [Uploader] Done!"] ∧
    (∀ s : TState,
      (tstep s .t0).rem1 = s.rem1 ∧ (tstep s .t0).rem2 = s.rem2 ∧
      (tstep s .t1).rem0 = s.rem0 ∧ (tstep s .t1).rem2 = s.rem2 ∧
      (tstep s .t2).rem0 = s.rem0 ∧ (tstep s .t2).rem1 = s.rem1) := by
  refine ⟨?_, rfl, rfl, rfl, ?_⟩
  · intro name steps
    simp [workerOut]
  · intro s
    obtain ⟨r0, r1, r2, md, o⟩ := s
    refine ⟨?_, ?_, ?_, ?_, ?_, ?_⟩ <;>
      first
        | (cases r0 <;> rfl)
        | (cases r1 <;> rfl)
        | (cases r2 <;> rfl)

/-- C7: the three deliberately raised exceptions are exactly division by
zero in `risky_division` when `b = 0` (with `a / b` returned otherwise), a
`ValueError` from `parse_number` on a non-numeric string (with the parsed
integer returned on a numeric one), and a `KeyError` from indexing
`{"a": 1, "b": 2}` with `"missing_key"` (while a present key is returned). -/
theorem deliberate_exceptions :
    risky_division 10 0 = .error .zeroDivisionError ∧
    (∀ a b : ℚ, b ≠ 0 → risky_division a b = .ok (a / b)) ∧
    parse_number "hello" = .error .valueError ∧
    parse_number "42" = .ok 42 ∧
    pyDictGet [("a", 1), ("b", 2)] "missing_key" = .error .keyError ∧
    pyDictGet [("a", 1), ("b", 2)] "a" = .ok 1 := by
  refine ⟨?_, ?_, ?_, ?_, ?_, ?_⟩
  · rfl
  · intro a b hb
    simp [risky_division, hb]
  · rfl
  · rfl
  · rfl
  · rfl

/-- C7 witness: the nonzero-divisor case at concrete inputs. -/
theorem deliberate_exceptions_div_ok :
    risky_division 10 4 = Except.ok ((10 : ℚ) / 4) :=
  deliberate_exceptions.2.1 10 4 (by norm_num)

/-- C8: on any empty input the Section 7 loop body never runs, so the
summary line reads the never-assigned `batch_id` and fails (`none`, the
`NameError`); with a nonempty input and positive batch size the summary is
well defined. -/
theorem process_batches_empty_fails :
    (∀ bs : Nat, process_batches ([] : List Nat) bs = none) ∧
    (∀ (data : List Nat) (bs : Nat), data ≠ [] → 0 < bs →
      (process_batches data bs).isSome = true) := by
  constructor
  · intro bs
    have h0 : (bs - 1) / bs = 0 := by
      cases bs with
      | zero => rfl
      | succ n =>
        simp only [Nat.succ_sub_one]
        exact Nat.div_eq_of_lt (Nat.lt_succ_self n)
    simp [process_batches, batchIndices, h0]
  · intro data bs hne hbs
    have hlen : 0 < data.length := List.length_pos.mpr hne
    have hn : 0 < (data.length + bs - 1) / bs := Nat.div_pos (by omega) hbs
    have hne2 : batchIndices data.length bs ≠ [] := by
      intro h
      have := congrArg List.length h
      simp only [batchIndices, List.length_range', List.length_nil] at this
      omega
    cases hL : (batchIndices data.length bs).getLast? with
    | none =>
      have hsome := List.getLast?_isSome.mpr hne2
      rw [hL] at hsome
      exact absurd hsome (by simp)
    | some i => simp [process_batches, hL]

/-- C8 witness: the script's own call (15 items, batch size 4) satisfies
the precondition and its summary is defined. -/
theorem process_batches_sample_defined :
    sample_data ≠ [] ∧ 0 < 4 ∧ (process_batches sample_data 4).isSome = true :=
  ⟨by decide, by decide,
   process_batches_empty_fails.2 sample_data 4 (by decide) (by decide)⟩

/-- C9: `process_order` returns `subtotal + 0.08 × subtotal` for the
subtotal `Σ price × qty`, and takes the programmatic-breakpoint branch
exactly when `subtotal > 500`; the script's first order (subtotal 65.00)
does not take it and the second (subtotal 1049.93) does. -/
theorem process_order_spec :
    (∀ items : List OrderItem,
      (process_order items).1 =
        orderSubtotal items + (8/100) * orderSubtotal items ∧
      ((process_order items).2 = true ↔ orderSubtotal items > 500)) ∧
    orderSubtotal order1 = 65 ∧ (process_order order1).2 = false ∧
    orderSubtotal order2 = 104993/100 ∧ (process_order order2).2 = true := by
  have hgen : ∀ items : List OrderItem,
      (process_order items).1 =
        orderSubtotal items + (8/100) * orderSubtotal items ∧
      ((process_order items).2 = true ↔ orderSubtotal items > 500) := by
    intro items
    constructor
    · show orderSubtotal items + orderSubtotal items * (8/100) = _
      ring
    · show decide (orderSubtotal items > 500) = true ↔ _
      exact ⟨of_decide_eq_true, decide_eq_true⟩
  have h1 : orderSubtotal order1 = 65 := by
    simp [orderSubtotal, order1]
    norm_num
  have h2 : orderSubtotal order2 = 104993/100 := by
    simp [orderSubtotal, order2]
    norm_num
  refine ⟨hgen, h1, ?_, h2, ?_⟩
  · refine Bool.eq_false_iff.mpr (fun hT => ?_)
    have := (hgen order1).2.mp hT
    rw [h1] at this
    norm_num at this
  · exact (hgen order2).2.mpr (by rw [h2]; norm_num)

/-- C10: after the first `i` transactions the running total is the sum of
their amounts, the history is the list of the first `i` prefix sums (length
`i`, last element the running total, nondecreasing when all amounts are
nonnegative), and the high-value count is the number of amounts above 100 —
which is 5 for the script's ten transactions. -/
theorem analyze_transactions_invariants :
    (∀ (txns : List ℚ) (i : Nat), i ≤ txns.length →
      (analyze_transactions (txns.take i)).running_total = (txns.take i).sum ∧
      (analyze_transactions (txns.take i)).history = cumSums (txns.take i) ∧
      (analyze_transactions (txns.take i)).history.length = i ∧
      (analyze_transactions (txns.take i)).high_value_count =
        (txns.take i).countP (fun a => decide (a > 100)) ∧
      (0 < i → (analyze_transactions (txns.take i)).history.getLast? =
        some ((analyze_transactions (txns.take i)).running_total)) ∧
      ((∀ a ∈ txns, 0 ≤ a) →
        List.Chain' (· ≤ ·) (analyze_transactions (txns.take i)).history)) ∧
    (analyze_transactions scriptAmounts).high_value_count = 5 := by
  constructor
  · intro txns i hi
    rw [analyze_transactions_spec (txns.take i)]
    refine ⟨rfl, rfl, ?_, rfl, ?_, ?_⟩
    · show (cumSums (txns.take i)).length = i
      rw [cumSums, cumFrom_length, List.length_take]
      omega
    · intro hpos
      show (cumSums (txns.take i)).getLast? = some ((txns.take i).sum)
      have hne : txns.take i ≠ [] := by
        intro h
        have hL := congrArg List.length h
        rw [List.length_take, List.length_nil] at hL
        omega
      rw [cumSums, cumFrom_getLast _ _ hne, zero_add]
    · intro hnn
      exact cumFrom_chain _ _ (fun a ha => hnn a (List.mem_of_mem_take ha))
  · rw [analyze_transactions_spec]
    show scriptAmounts.countP (fun a => decide (a > 100)) = 5
    norm_num [scriptAmounts, List.countP_cons]

/-- C10 witness: the invariants instantiated at the script's ten
transactions with all hypotheses discharged concretely. -/
theorem analyze_transactions_invariants_script :
    (analyze_transactions (scriptAmounts.take 10)).history.getLast? =
      some ((analyze_transactions (scriptAmounts.take 10)).running_total) ∧
    List.Chain' (· ≤ ·) (analyze_transactions (scriptAmounts.take 10)).history := by
  have h := analyze_transactions_invariants.1 scriptAmounts 10 (by decide)
  refine ⟨h.2.2.2.2.1 (by norm_num), h.2.2.2.2.2 ?_⟩
  intro a ha
  fin_cases ha <;> norm_num

end DebugpyDemo
